import Mathlib

/-!
Verification of the archive/placement/selection core of a MAP-Elites
optimizer (`src/map_elites/mapelites.py`) against its specification.

The Python code works on IEEE floating-point values (including `np.inf`
and `np.nan`, which it uses as sentinels); we embed floats shallowly as an
inductive type `Fl` with a finite rational payload plus the two infinities
and NaN, and give the IEEE comparison operators (`==`, `<`, `<=`, `>=`)
their float semantics on that type (every comparison involving NaN is
false).  NumPy grids become functions from coordinates to cell contents;
`raise` becomes `Except.error`; the random draws of the selector become an
explicit list of proposed coordinates.
-/

/-- Shallow model of a Python/NumPy float: a finite rational, `inf`,
`-inf`, or `nan`. -/
inductive Fl : Type
  | finite (q : ℚ)
  | inf
  | neginf
  | nan
  deriving DecidableEq, Repr

namespace Fl

/-- IEEE `==` on floats: `nan` compares unequal to everything, itself
included (this is `x == y` in Python, `operator.eq` on floats). -/
def pyEq : Fl → Fl → Bool
  | finite a, finite b => decide (a = b)
  | inf, inf => true
  | neginf, neginf => true
  | _, _ => false

/-- IEEE `<` on floats (`operator.lt`): any comparison with `nan` is
false. -/
def flt : Fl → Fl → Bool
  | finite a, finite b => decide (a < b)
  | finite _, inf => true
  | neginf, finite _ => true
  | neginf, inf => true
  | _, _ => false

/-- IEEE `<=` on floats (`operator.le`): any comparison with `nan` is
false. -/
def fle : Fl → Fl → Bool
  | finite a, finite b => decide (a ≤ b)
  | finite _, inf => true
  | neginf, finite _ => true
  | neginf, inf => true
  | inf, inf => true
  | neginf, neginf => true
  | _, _ => false

/-- IEEE `>=` on floats (`operator.ge`). -/
def fge (a b : Fl) : Bool := fle b a

/-- `np.abs` on our float model (`abs nan = nan`). -/
def fabs : Fl → Fl
  | finite q => finite |q|
  | inf => inf
  | neginf => inf
  | nan => nan

/-- Whether the value is a finite real. -/
def isFinite : Fl → Bool
  | finite _ => true
  | _ => false

theorem flt_imp_fle : ∀ a b : Fl, flt a b = true → fle a b = true := by
  intro a b h
  cases a <;> cases b <;> simp_all [flt, fle] <;> exact le_of_lt h

theorem fle_trans : ∀ a b c : Fl, fle a b = true → fle b c = true → fle a c = true := by
  intro a b c hab hbc
  cases a <;> cases b <;> cases c <;> simp_all [fle] <;> exact le_trans hab hbc

theorem fle_total_of_not_nan :
    ∀ a b : Fl, a ≠ nan → b ≠ nan → fle a b = true ∨ fle b a = true := by
  intro a b ha hb
  cases a <;> cases b <;> simp_all [fle] <;> exact le_total _ _

theorem fle_refl_of_not_nan : ∀ a : Fl, a ≠ nan → fle a a = true := by
  intro a ha
  cases a <;> simp_all [fle]

end Fl

/-- The five comparison operators the source accepts
(`operator.eq/le/lt/ge/gt`), plus `other`: any Python object that is none
of those five (the membership test in `FeatureDimension.__init__` only
distinguishes these cases). -/
inductive PyOp : Type
  | eq
  | le
  | lt
  | ge
  | gt
  | other (s : String)
  deriving DecidableEq, Repr

/-- Applying one of the five comparison operators to two reals (feature
measurements are real-valued; `other` is never applied because
construction rejects it). -/
def applyOp : PyOp → ℚ → ℚ → Bool
  | PyOp.eq, a, b => decide (a = b)
  | PyOp.le, a, b => decide (a ≤ b)
  | PyOp.lt, a, b => decide (a < b)
  | PyOp.ge, a, b => decide (a ≥ b)
  | PyOp.gt, a, b => decide (a > b)
  | PyOp.other _, _, _ => false

/-- `FeatureDimension`: one axis of the feature space.  Field names follow
the source (`self.name`, `self.feature_function_call`,
`self.feature_function_target`, `self.feature_function_operator`,
`self.bins`).  Genotypes are opaque (`X`); the measurement functions
return reals. -/
structure FeatureDimension (X : Type) where
  name : String
  feature_function_target : X → ℚ
  feature_function_call : X → ℚ
  feature_function_operator : PyOp
  bins : List ℚ

/-- `FeatureDimension.__init__`: stores the fields, raising `ValueError`
when the operator is not one of
`[operator.eq, operator.le, operator.lt, operator.ge, operator.gt]`.
The `bins` argument is stored as given, with no check. -/
def mkFeatureDimension {X : Type} (name : String) (target call : X → ℚ)
    (op : PyOp) (bins : List ℚ) : Except String (FeatureDimension X) :=
  if op ∈ [PyOp.eq, PyOp.le, PyOp.lt, PyOp.ge, PyOp.gt] then
    Except.ok ⟨name, target, call, op, bins⟩
  else
    Except.error "Feature function operator not recognized"

/-- `FeatureDimension.feature_descriptor`: for `operator.eq` the absolute
gap between measured and target value; otherwise `0` when the relation
holds and the absolute gap when it does not. -/
def feature_descriptor {X : Type} (d : FeatureDimension X) (x : X) : ℚ :=
  if d.feature_function_operator = PyOp.eq then
    |d.feature_function_call x - d.feature_function_target x|
  else if applyOp d.feature_function_operator (d.feature_function_call x)
      (d.feature_function_target x) then
    0
  else
    |d.feature_function_call x - d.feature_function_target x|

/-- `np.digitize([value], bins)[0]` for monotonically increasing `bins`
(the default `right=False` side): the index of the first edge strictly
greater than `value`, i.e. the length of the prefix of edges `≤ value`. -/
def digitize (value : ℚ) (bins : List ℚ) : Nat :=
  (bins.takeWhile fun b => decide (b ≤ value)).length

/-- `FeatureDimension.discretize`: bin index of a real value, raising when
the digitize index is `0` or `len(bins)` (value outside the bin range);
otherwise `index - 1` because digitize is 1-indexed. -/
def discretize (bins : List ℚ) (value : ℚ) : Except String Nat :=
  let index := digitize value bins
  if index = 0 ∨ index = bins.length then
    Except.error "value outside of bins"
  else
    Except.ok (index - 1)

/-- A stored genotype: the solutions grid holds fixed-size float vectors
(dtype `(float, 2)` in the source), modelled as lists of floats. -/
def Gen : Type := List Fl

instance : DecidableEq Gen := by unfold Gen; infer_instance

/-- The archive: the `solutions` grid and the `performances` grid, both
indexed by the same cell coordinates `ι`. -/
structure Archive (ι : Type) where
  solutions : ι → Gen
  performances : ι → Fl

/-- `MapElites.__init__`'s choice of placement comparator:
`operator.lt` when `minimization` is true, `operator.ge` otherwise. -/
def place_operator (minimization : Bool) (a b : Fl) : Bool :=
  if minimization then Fl.flt a b else Fl.fge a b

/-- The freshly initialized archive:
`solutions = np.full(ft_bins, (np.inf, np.inf))` and
`performances = np.full(ft_bins, np.inf)`. -/
def initArchive (ι : Type) : Archive ι :=
  { solutions := fun _ => [Fl.inf, Fl.inf]
    performances := fun _ => Fl.inf }

/-- `MapElites.place_in_mapelites`: compute the cell `b = map_x_to_b(x)`
and the performance `perf = performance_measure(x)` (both abstract methods,
passed as functions), then overwrite cell `b` of both grids when
`place_operator(perf, performances[b])` holds, else leave the archive
unchanged. -/
def place_in_mapelites {ι : Type} [DecidableEq ι] (minimization : Bool)
    (map_x_to_b : Gen → ι) (performance_measure : Gen → Fl)
    (A : Archive ι) (x : Gen) : Archive ι :=
  let b := map_x_to_b x
  let perf := performance_measure x
  if place_operator minimization perf (A.performances b) = true then
    { solutions := Function.update A.solutions b x
      performances := Function.update A.performances b perf }
  else
    A

/-- A whole run of placements: fold `place_in_mapelites` over a list of
candidate genotypes. -/
def placeAll {ι : Type} [DecidableEq ι] (minimization : Bool)
    (map_x_to_b : Gen → ι) (performance_measure : Gen → Fl)
    (A : Archive ι) (xs : List Gen) : Archive ι :=
  xs.foldl (place_in_mapelites minimization map_x_to_b performance_measure) A

/-- "a is at least as good as b" under the active objective direction:
`a <= b` under minimization, `a >= b` under maximization (IEEE
comparisons). -/
def asGood (minimization : Bool) (a b : Fl) : Bool :=
  if minimization then Fl.fle a b else Fl.fge a b

/-- A cell coordinate: one bin index per feature dimension (the tuples
built by `_get_random_index` and returned by `map_x_to_b`). -/
def Coord : Type := List Nat

instance : DecidableEq Coord := by unfold Coord; infer_instance

/-- `random_selection._is_not_initialized`: the cell at `index` counts as
uninitialized when any component `x` of the stored genotype satisfies
`x == np.nan or np.abs(x) == np.inf` (IEEE comparisons). -/
def is_not_initialized (solutions : Coord → Gen) (index : Coord) : Bool :=
  (solutions index).any fun x => Fl.pyEq x Fl.nan || Fl.pyEq (Fl.fabs x) Fl.inf

/-- The selector's inner `while idx in idxs or _is_not_initialized(idx)`
loop: walk the stream of randomly proposed coordinates, skipping proposals
already chosen in this call or pointing at uninitialized cells, until one
is accepted (with the rest of the stream) or the stream runs out (the
source redraws forever; a `none` result models non-termination within the
given draws). -/
def pickFresh (solutions : Coord → Gen) (idxs : List Coord) :
    List Coord → Option (Coord × List Coord)
  | [] => none
  | p :: rest =>
    if p ∈ idxs ∨ is_not_initialized solutions p = true then
      pickFresh solutions idxs rest
    else
      some (p, rest)

/-- The selector's outer `for _ in range(0, individuals)` loop,
accumulating accepted coordinates in `idxs`. -/
def selectLoop (solutions : Coord → Gen) :
    Nat → List Coord → List Coord → Option (List Coord)
  | 0, idxs, _ => some idxs
  | n + 1, idxs, proposals =>
    match pickFresh solutions idxs proposals with
    | none => none
    | some (c, rest) => selectLoop solutions n (idxs ++ [c]) rest

/-- The coordinates accepted by `random_selection(individuals)`, fed a
stream of proposed coordinates standing for the outcomes of the
`_get_random_index` draws. -/
def selectIndices (solutions : Coord → Gen) (individuals : Nat)
    (proposals : List Coord) : Option (List Coord) :=
  selectLoop solutions individuals [] proposals

/-- `MapElites.random_selection`: the list `inds` of genotypes stored at
the accepted coordinates. -/
def random_selection (solutions : Coord → Gen) (individuals : Nat)
    (proposals : List Coord) : Option (List Gen) :=
  (selectIndices solutions individuals proposals).map fun idxs =>
    idxs.map solutions

/-- A Python value as seen by the `isinstance(ft, FeatureDimension)` check
inside `MapElites.__init__`: either a `FeatureDimension` or anything
else. -/
inductive PyVal (X : Type) : Type
  | fd (d : FeatureDimension X)
  | notFd

/-- Whether a Python value is a `FeatureDimension` instance. -/
def PyVal.isFd {X : Type} : PyVal X → Bool
  | PyVal.fd _ => true
  | PyVal.notFd => false

/-- Extract the `FeatureDimension` from a Python value, when it is one. -/
def PyVal.asFd {X : Type} : PyVal X → Option (FeatureDimension X)
  | PyVal.fd d => some d
  | PyVal.notFd => none

/-- The value returned by `generate_feature_dimensions` as seen by the
`isinstance(self.feature_dimensions, (list, tuple))` check: a Python
list, a Python tuple, or any non-sequence value. -/
inductive FdResult (X : Type) : Type
  | pylist (items : List (PyVal X))
  | pytuple (items : List (PyVal X))
  | nonSequence

/-- The check in `MapElites.__init__`: raise unless the result of
`generate_feature_dimensions` is a list or tuple whose items are all
`FeatureDimension` objects; on success, the validated dimensions. -/
def checkFeatureDimensions {X : Type} :
    FdResult X → Except String (List (FeatureDimension X))
  | FdResult.pylist items =>
    if items.all PyVal.isFd then
      Except.ok (items.filterMap PyVal.asFd)
    else
      Except.error "feature_dimensions must be a list or tuple of FeatureDimension objects"
  | FdResult.pytuple items =>
    if items.all PyVal.isFd then
      Except.ok (items.filterMap PyVal.asFd)
    else
      Except.error "feature_dimensions must be a list or tuple of FeatureDimension objects"
  | FdResult.nonSequence =>
    Except.error "feature_dimensions must be a list or tuple of FeatureDimension objects"

/-- Whether an `FdResult` passes the `__init__` check: a list or tuple
with every item a `FeatureDimension`. -/
def FdResult.wellFormed {X : Type} : FdResult X → Bool
  | FdResult.pylist items => items.all PyVal.isFd
  | FdResult.pytuple items => items.all PyVal.isFd
  | FdResult.nonSequence => false

namespace Fl

theorem ne_nan_of_isFinite : ∀ a : Fl, isFinite a = true → a ≠ nan := by
  intro a h
  cases a <;> simp_all [isFinite]

theorem fle_of_not_flt :
    ∀ a b : Fl, a ≠ nan → b ≠ nan → flt a b = false → fle b a = true := by
  intro a b ha hb h
  cases a <;> cases b <;> simp_all [flt, fle]

theorem fle_of_not_fle :
    ∀ a b : Fl, a ≠ nan → b ≠ nan → fle a b = false → fle b a = true := by
  intro a b ha hb h
  rcases fle_total_of_not_nan a b ha hb with h' | h'
  · rw [h'] at h; cases h
  · exact h'

theorem pyEq_nan_right : ∀ x : Fl, pyEq x nan = false := by
  intro x
  cases x <;> rfl

end Fl

theorem any_nan_or_inf_eq (l : List Fl) :
    (l.any fun x => Fl.pyEq x Fl.nan || Fl.pyEq (Fl.fabs x) Fl.inf) =
      l.any fun x => Fl.pyEq (Fl.fabs x) Fl.inf := by
  induction l with
  | nil => rfl
  | cons a t ih => simp [List.any_cons, Fl.pyEq_nan_right, ih]

/-- C9: the selector's emptiness predicate `_is_not_initialized` is
equivalent to its infinity test alone: it holds exactly when some
component of the stored genotype has infinite absolute value, because the
`x == np.nan` equality comparison never succeeds for any float `x`. -/
theorem C9_emptiness_check_is_inf_test_alone (solutions : Coord → Gen) (index : Coord) :
    (is_not_initialized solutions index =
      (solutions index).any fun x => Fl.pyEq (Fl.fabs x) Fl.inf) ∧
    ∀ x : Fl, Fl.pyEq x Fl.nan = false :=
  ⟨any_nan_or_inf_eq (solutions index), Fl.pyEq_nan_right⟩

/-- C10: `FeatureDimension.__init__` performs no validation of `bins`:
for every bins value (empty, unsorted or otherwise), construction succeeds
whenever the operator is one of the five supported ones, and stores the
bins unchanged. -/
theorem C10_no_bins_validation {X : Type} (name : String) (target call : X → ℚ)
    (op : PyOp) (bins : List ℚ)
    (hop : op ∈ [PyOp.eq, PyOp.le, PyOp.lt, PyOp.ge, PyOp.gt]) :
    mkFeatureDimension name target call op bins =
      Except.ok ⟨name, target, call, op, bins⟩ := by
  unfold mkFeatureDimension
  rw [if_pos hop]

/-- Witness for C10: construction succeeds with unsorted, non-covering
bins `[3, 1]` and relation `<=`. -/
theorem C10_witness :
    mkFeatureDimension "dim" (fun _ : Unit => 0) (fun _ => 0) PyOp.le [3, 1] =
      Except.ok ⟨"dim", fun _ => 0, fun _ => 0, PyOp.le, [3, 1]⟩ :=
  C10_no_bins_validation "dim" _ _ PyOp.le [3, 1] (by decide)

/-- C8: configuration errors are fatal at construction: a
`FeatureDimension` whose operator is outside the five supported kinds is
rejected, and a `generate_feature_dimensions` result that is not a list
or tuple of `FeatureDimension` objects is rejected. -/
theorem C8_construction_errors {X : Type} :
    (∀ (name : String) (target call : X → ℚ) (op : PyOp) (bins : List ℚ),
      op ∉ [PyOp.eq, PyOp.le, PyOp.lt, PyOp.ge, PyOp.gt] →
      mkFeatureDimension name target call op bins =
        Except.error "Feature function operator not recognized") ∧
    ∀ r : FdResult X, r.wellFormed = false →
      checkFeatureDimensions r =
        Except.error "feature_dimensions must be a list or tuple of FeatureDimension objects" := by
  constructor
  · intro name target call op bins hop
    unfold mkFeatureDimension
    rw [if_neg hop]
  · intro r hr
    cases r with
    | pylist items =>
      simp only [FdResult.wellFormed] at hr
      simp [checkFeatureDimensions, hr]
    | pytuple items =>
      simp only [FdResult.wellFormed] at hr
      simp [checkFeatureDimensions, hr]
    | nonSequence => rfl

/-- Witness for C8: an unrecognized operator object and a non-sequence
`generate_feature_dimensions` result are both rejected. -/
theorem C8_witness :
    mkFeatureDimension "dim" (fun _ : Unit => 0) (fun _ => 0) (PyOp.other "floordiv") [0, 1] =
      Except.error "Feature function operator not recognized" ∧
    checkFeatureDimensions (FdResult.nonSequence (X := Unit)) =
      Except.error "feature_dimensions must be a list or tuple of FeatureDimension objects" :=
  ⟨C8_construction_errors.1 "dim" _ _ (PyOp.other "floordiv") [0, 1] (by decide),
   C8_construction_errors.2 FdResult.nonSequence rfl⟩

/-- C5: `feature_descriptor` returns the absolute measured/target gap when
the relation is `equals`; for the four inequality relations it returns `0`
when the relation holds and the absolute gap otherwise; in all cases the
result is `≥ 0`. -/
theorem C5_feature_descriptor {X : Type} (d : FeatureDimension X) (x : X) :
    (d.feature_function_operator = PyOp.eq →
      feature_descriptor d x =
        |d.feature_function_call x - d.feature_function_target x|) ∧
    (d.feature_function_operator ∈ [PyOp.le, PyOp.lt, PyOp.ge, PyOp.gt] →
      (applyOp d.feature_function_operator (d.feature_function_call x)
          (d.feature_function_target x) = true →
        feature_descriptor d x = 0) ∧
      (applyOp d.feature_function_operator (d.feature_function_call x)
          (d.feature_function_target x) = false →
        feature_descriptor d x =
          |d.feature_function_call x - d.feature_function_target x|)) ∧
    0 ≤ feature_descriptor d x := by
  refine ⟨?_, ?_, ?_⟩
  · intro h
    unfold feature_descriptor
    rw [if_pos h]
  · intro h
    have hne : d.feature_function_operator ≠ PyOp.eq := by
      intro heq
      rw [heq] at h
      exact absurd h (by decide)
    constructor
    · intro happ
      unfold feature_descriptor
      rw [if_neg hne, if_pos happ]
    · intro happ
      unfold feature_descriptor
      rw [if_neg hne, if_neg (by simp [happ])]
  · unfold feature_descriptor
    split
    · exact abs_nonneg _
    · split
      · exact le_refl 0
      · exact abs_nonneg _

/-- Witness for C5: with `equals`, measured `3` and target `1` give
descriptor `2`; with `>=`, measured `3` and target `1` satisfy the
relation and give descriptor `0`. -/
theorem C5_witness :
    feature_descriptor ⟨"a", fun _ : Unit => 1, fun _ => 3, PyOp.eq, []⟩ () = 2 ∧
    feature_descriptor ⟨"b", fun _ : Unit => 1, fun _ => 3, PyOp.ge, []⟩ () = 0 := by
  constructor
  · have h := (C5_feature_descriptor ⟨"a", fun _ : Unit => 1, fun _ => 3, PyOp.eq, []⟩ ()).1 rfl
    rw [h]
    norm_num
  · exact ((C5_feature_descriptor ⟨"b", fun _ : Unit => 1, fun _ => 3, PyOp.ge, []⟩ ()).2.1 (by norm_num)).1 (by norm_num [applyOp])

/-- C1 (evaluation at the failing input): with an empty cell (sentinel
performance `+inf`) and a finite-performance candidate, placement succeeds
under minimization (`0 < inf`) but is rejected under maximization
(`0 >= inf` is false), so the empty cell is never filled when
`minimization` is false: the `+inf` sentinel is *better*, not worse, than
every real value under the `>=` comparator. -/
theorem C1_sentinel_not_worse_under_maximization :
    place_operator true (Fl.finite 0) Fl.inf = true ∧
    place_operator false (Fl.finite 0) Fl.inf = false ∧
    (place_in_mapelites true (fun _ => ()) (fun _ => Fl.finite 0)
        (initArchive Unit) [Fl.finite 1]).performances () = Fl.finite 0 ∧
    place_in_mapelites false (fun _ => ()) (fun _ => Fl.finite 0)
        (initArchive Unit) [Fl.finite 1] = initArchive Unit := by
  refine ⟨rfl, rfl, ?_, rfl⟩
  simp [place_in_mapelites, place_operator, Fl.flt, initArchive]

/-- C3: placement tie-breaking is asymmetric by objective direction: with
a non-sentinel incumbent of performance `q` and a candidate of the exact
same performance, minimization (`<`) retains the incumbent (archive
unchanged) while maximization (`>=`) replaces it with the new candidate. -/
theorem C3_tie_break {ι : Type} [DecidableEq ι] (map_x_to_b : Gen → ι)
    (performance_measure : Gen → Fl) (A : Archive ι) (x : Gen) (q : ℚ)
    (hinc : A.performances (map_x_to_b x) = Fl.finite q)
    (hperf : performance_measure x = Fl.finite q) :
    place_in_mapelites true map_x_to_b performance_measure A x = A ∧
    (place_in_mapelites false map_x_to_b performance_measure A x).performances
        (map_x_to_b x) = Fl.finite q ∧
    (place_in_mapelites false map_x_to_b performance_measure A x).solutions
        (map_x_to_b x) = x := by
  refine ⟨?_, ?_, ?_⟩
  · unfold place_in_mapelites
    rw [if_neg]
    simp [hinc, hperf, place_operator, Fl.flt]
  · unfold place_in_mapelites
    rw [if_pos]
    · simp [hperf]
    · simp [hinc, hperf, place_operator, Fl.fge, Fl.fle]
  · unfold place_in_mapelites
    rw [if_pos]
    · simp
    · simp [hinc, hperf, place_operator, Fl.fge, Fl.fle]

/-- Witness for C3: incumbent performance `2`, candidate of performance
`2`: kept under minimization, replaced under maximization. -/
theorem C3_witness :
    place_in_mapelites true (fun _ => ()) (fun _ => Fl.finite 2)
        ⟨fun _ => [Fl.finite 9], fun _ => Fl.finite 2⟩ [Fl.finite 5] =
      ⟨fun _ => [Fl.finite 9], fun _ => Fl.finite 2⟩ ∧
    (place_in_mapelites false (fun _ => ()) (fun _ => Fl.finite 2)
        ⟨fun _ => [Fl.finite 9], fun _ => Fl.finite 2⟩ [Fl.finite 5]).performances () =
      Fl.finite 2 ∧
    (place_in_mapelites false (fun _ => ()) (fun _ => Fl.finite 2)
        ⟨fun _ => [Fl.finite 9], fun _ => Fl.finite 2⟩ [Fl.finite 5]).solutions () =
      [Fl.finite 5] :=
  C3_tie_break (ι := Unit) (fun _ => ()) (fun _ => Fl.finite 2)
    ⟨fun _ => [Fl.finite 9], fun _ => Fl.finite 2⟩ [Fl.finite 5] 2 rfl rfl

/-- C7: `place_in_mapelites` is frame-bounded and atomic on rejection:
when the candidate beats the incumbent at its cell `b`, both grids are
overwritten exactly at `b` and no other cell of either grid changes; when
it does not, the whole archive is returned unchanged (and the function is
total: rejection raises nothing). -/
theorem C7_frame_bounded {ι : Type} [DecidableEq ι] (minimization : Bool)
    (map_x_to_b : Gen → ι) (performance_measure : Gen → Fl)
    (A : Archive ι) (x : Gen) :
    (place_operator minimization (performance_measure x)
        (A.performances (map_x_to_b x)) = true →
      (place_in_mapelites minimization map_x_to_b performance_measure A x).performances
          (map_x_to_b x) = performance_measure x ∧
      (place_in_mapelites minimization map_x_to_b performance_measure A x).solutions
          (map_x_to_b x) = x ∧
      ∀ c : ι, c ≠ map_x_to_b x →
        (place_in_mapelites minimization map_x_to_b performance_measure A x).performances c =
          A.performances c ∧
        (place_in_mapelites minimization map_x_to_b performance_measure A x).solutions c =
          A.solutions c) ∧
    (place_operator minimization (performance_measure x)
        (A.performances (map_x_to_b x)) = false →
      place_in_mapelites minimization map_x_to_b performance_measure A x = A) := by
  constructor
  · intro h
    unfold place_in_mapelites
    rw [if_pos h]
    refine ⟨Function.update_same _ _ _, Function.update_same _ _ _, ?_⟩
    intro c hc
    exact ⟨Function.update_noteq hc _ _, Function.update_noteq hc _ _⟩
  · intro h
    unfold place_in_mapelites
    rw [if_neg]
    rw [h]
    simp

/-- Witness for C7: under minimization a performance-`1` candidate beats
the `+inf` sentinel: the target cell gets the new pair, the other cell of
a two-cell archive is untouched; under maximization the same candidate is
rejected and the archive returned unchanged. -/
theorem C7_witness :
    ((place_in_mapelites true (fun _ => true) (fun _ => Fl.finite 1)
        (initArchive Bool) [Fl.finite 4]).performances true = Fl.finite 1 ∧
      (place_in_mapelites true (fun _ => true) (fun _ => Fl.finite 1)
        (initArchive Bool) [Fl.finite 4]).solutions true = [Fl.finite 4] ∧
      ∀ c : Bool, c ≠ true →
        (place_in_mapelites true (fun _ => true) (fun _ => Fl.finite 1)
          (initArchive Bool) [Fl.finite 4]).performances c =
            (initArchive Bool).performances c ∧
        (place_in_mapelites true (fun _ => true) (fun _ => Fl.finite 1)
          (initArchive Bool) [Fl.finite 4]).solutions c =
            (initArchive Bool).solutions c) ∧
    place_in_mapelites false (fun _ => true) (fun _ => Fl.finite 1)
        (initArchive Bool) [Fl.finite 4] = initArchive Bool :=
  ⟨(C7_frame_bounded true (fun _ => true) (fun _ => Fl.finite 1)
      (initArchive Bool) [Fl.finite 4]).1 rfl,
   (C7_frame_bounded false (fun _ => true) (fun _ => Fl.finite 1)
      (initArchive Bool) [Fl.finite 4]).2 rfl⟩

theorem place_performances_cases {ι : Type} [DecidableEq ι] (minimization : Bool)
    (map_x_to_b : Gen → ι) (performance_measure : Gen → Fl)
    (A : Archive ι) (y : Gen) (c : ι) :
    (place_in_mapelites minimization map_x_to_b performance_measure A y).performances c =
        A.performances c ∨
    ((place_in_mapelites minimization map_x_to_b performance_measure A y).performances c =
        performance_measure y ∧
      c = map_x_to_b y ∧
      place_operator minimization (performance_measure y)
        (A.performances (map_x_to_b y)) = true) := by
  unfold place_in_mapelites
  by_cases h : place_operator minimization (performance_measure y)
      (A.performances (map_x_to_b y)) = true
  · rw [if_pos h]
    by_cases hc : c = map_x_to_b y
    · subst hc
      exact Or.inr ⟨Function.update_same _ _ _, rfl, h⟩
    · exact Or.inl (Function.update_noteq hc _ _)
  · rw [if_neg h]
    exact Or.inl rfl

theorem placeAll_not_nan {ι : Type} [DecidableEq ι] (minimization : Bool)
    (map_x_to_b : Gen → ι) (performance_measure : Gen → Fl) :
    ∀ (xs : List Gen) (A : Archive ι),
      (∀ x ∈ xs, (performance_measure x).isFinite = true) →
      (∀ c, A.performances c ≠ Fl.nan) →
      ∀ c, (placeAll minimization map_x_to_b performance_measure A xs).performances c ≠
        Fl.nan := by
  intro xs
  induction xs with
  | nil => intro A _ hA c; exact hA c
  | cons y t ih =>
    intro A hfin hA c
    have hy : (performance_measure y).isFinite = true := hfin y (by simp)
    refine ih (place_in_mapelites minimization map_x_to_b performance_measure A y)
      (fun x hx => hfin x (by simp [hx])) ?_ c
    intro c'
    rcases place_performances_cases minimization map_x_to_b performance_measure A y c' with
      h | ⟨h, _, _⟩
    · rw [h]; exact hA c'
    · rw [h]; exact Fl.ne_nan_of_isFinite _ hy

theorem asGood_refl (minimization : Bool) (a : Fl) (ha : a ≠ Fl.nan) :
    asGood minimization a a = true := by
  cases minimization <;> simp [asGood, Fl.fge, Fl.fle_refl_of_not_nan a ha]

theorem asGood_trans (minimization : Bool) (a b c : Fl) (hab : asGood minimization a b = true)
    (hbc : asGood minimization b c = true) : asGood minimization a c = true := by
  cases minimization <;> simp [asGood, Fl.fge] at hab hbc ⊢
  · exact Fl.fle_trans c b a hbc hab
  · exact Fl.fle_trans a b c hab hbc

theorem place_mono {ι : Type} [DecidableEq ι] (minimization : Bool)
    (map_x_to_b : Gen → ι) (performance_measure : Gen → Fl)
    (A : Archive ι) (y : Gen) (c : ι)
    (hA : A.performances c ≠ Fl.nan) :
    asGood minimization
      ((place_in_mapelites minimization map_x_to_b performance_measure A y).performances c)
      (A.performances c) = true := by
  rcases place_performances_cases minimization map_x_to_b performance_measure A y c with
    h | ⟨h, hc, hop⟩
  · rw [h]; exact asGood_refl minimization _ hA
  · rw [h]
    subst hc
    cases minimization <;> simp [asGood, place_operator] at hop ⊢
    · exact hop
    · exact Fl.flt_imp_fle _ _ hop

theorem placeAll_mono {ι : Type} [DecidableEq ι] (minimization : Bool)
    (map_x_to_b : Gen → ι) (performance_measure : Gen → Fl) :
    ∀ (xs : List Gen) (A : Archive ι) (c : ι),
      (∀ x ∈ xs, (performance_measure x).isFinite = true) →
      (∀ c', A.performances c' ≠ Fl.nan) →
      asGood minimization
        ((placeAll minimization map_x_to_b performance_measure A xs).performances c)
        (A.performances c) = true := by
  intro xs
  induction xs with
  | nil => intro A c _ hA; exact asGood_refl minimization _ (hA c)
  | cons y t ih =>
    intro A c hfin hA
    have hy : (performance_measure y).isFinite = true := hfin y (by simp)
    have hA1 : ∀ c', (place_in_mapelites minimization map_x_to_b performance_measure A y).performances c' ≠ Fl.nan := by
      intro c'
      rcases place_performances_cases minimization map_x_to_b performance_measure A y c' with
        h | ⟨h, _, _⟩
      · rw [h]; exact hA c'
      · rw [h]; exact Fl.ne_nan_of_isFinite _ hy
    refine asGood_trans minimization _ _ _
      (ih (place_in_mapelites minimization map_x_to_b performance_measure A y) c
        (fun x hx => hfin x (by simp [hx])) hA1)
      (place_mono minimization map_x_to_b performance_measure A y c (hA c))

theorem place_bound {ι : Type} [DecidableEq ι] (minimization : Bool)
    (map_x_to_b : Gen → ι) (performance_measure : Gen → Fl)
    (A : Archive ι) (y : Gen)
    (hy : (performance_measure y).isFinite = true)
    (hA : A.performances (map_x_to_b y) ≠ Fl.nan) :
    asGood minimization
      ((place_in_mapelites minimization map_x_to_b performance_measure A y).performances
        (map_x_to_b y))
      (performance_measure y) = true := by
  have hyn : performance_measure y ≠ Fl.nan := Fl.ne_nan_of_isFinite _ hy
  unfold place_in_mapelites
  by_cases h : place_operator minimization (performance_measure y)
      (A.performances (map_x_to_b y)) = true
  · rw [if_pos h]
    simp only [Function.update_same]
    exact asGood_refl minimization _ hyn
  · rw [if_neg h]
    rw [Bool.not_eq_true] at h
    cases minimization <;> simp [asGood, place_operator, Fl.fge] at h ⊢
    · exact Fl.fle_of_not_fle _ _ hA hyn h
    · exact Fl.fle_of_not_flt _ _ hyn hA h

theorem placeAll_bound {ι : Type} [DecidableEq ι] (minimization : Bool)
    (map_x_to_b : Gen → ι) (performance_measure : Gen → Fl) :
    ∀ (xs : List Gen) (A : Archive ι),
      (∀ x ∈ xs, (performance_measure x).isFinite = true) →
      (∀ c, A.performances c ≠ Fl.nan) →
      ∀ x ∈ xs,
        asGood minimization
          ((placeAll minimization map_x_to_b performance_measure A xs).performances
            (map_x_to_b x))
          (performance_measure x) = true := by
  intro xs
  induction xs with
  | nil => intro A _ _ x hx; cases hx
  | cons y t ih =>
    intro A hfin hA x hx
    have hy : (performance_measure y).isFinite = true := hfin y (by simp)
    have hA1 : ∀ c', (place_in_mapelites minimization map_x_to_b performance_measure A y).performances c' ≠ Fl.nan := by
      intro c'
      rcases place_performances_cases minimization map_x_to_b performance_measure A y c' with
        h | ⟨h, _, _⟩
      · rw [h]; exact hA c'
      · rw [h]; exact Fl.ne_nan_of_isFinite _ hy
    rcases List.mem_cons.mp hx with rfl | hxt
    · refine asGood_trans minimization _ _ _
        (placeAll_mono minimization map_x_to_b performance_measure t
          (place_in_mapelites minimization map_x_to_b performance_measure A x)
          (map_x_to_b x) (fun z hz => hfin z (by simp [hz])) hA1)
        (place_bound minimization map_x_to_b performance_measure A x hy (hA _))
    · exact ih (place_in_mapelites minimization map_x_to_b performance_measure A y)
        (fun z hz => hfin z (by simp [hz])) hA1 x hxt

/-- C2: starting from the freshly initialized archive, after any sequence
of `place_in_mapelites` calls on candidates with real (finite)
performances, every non-empty (non-sentinel) cell's stored performance is
at least as good — `<=` under minimization, `>=` under maximization — as
every performance ever computed for a candidate whose coordinates mapped
to that cell. -/
theorem C2_placement_monotonic {ι : Type} [DecidableEq ι] (minimization : Bool)
    (map_x_to_b : Gen → ι) (performance_measure : Gen → Fl)
    (xs : List Gen) (c : ι)
    (hfin : ∀ x ∈ xs, (performance_measure x).isFinite = true)
    (hne : (placeAll minimization map_x_to_b performance_measure (initArchive ι) xs).performances c ≠
      Fl.inf) :
    ∀ x ∈ xs, map_x_to_b x = c →
      asGood minimization
        ((placeAll minimization map_x_to_b performance_measure (initArchive ι) xs).performances c)
        (performance_measure x) = true := by
  intro x hx hc
  subst hc
  exact placeAll_bound minimization map_x_to_b performance_measure xs (initArchive ι)
    hfin (fun _ => by simp [initArchive]) x hx

/-- Witness for C2: two candidates mapped to the same cell with
performances `0` then `1` under minimization: the stored performance `0`
is `<=` the later candidate's performance `1`. -/
theorem C2_witness :
    asGood true
      ((placeAll true (fun _ => ()) (fun g => if g = [] then Fl.finite 0 else Fl.finite 1)
        (initArchive Unit) [[], [Fl.nan]]).performances ())
      (Fl.finite 1) = true :=
  C2_placement_monotonic true (fun _ => ())
    (fun g => if g = [] then Fl.finite 0 else Fl.finite 1)
    [[], [Fl.nan]] () (by decide) (by decide) [Fl.nan] (by simp) rfl

theorem digitize_nil (value : ℚ) : digitize value [] = 0 := rfl

theorem digitize_cons_le (value b : ℚ) (t : List ℚ) (hb : b ≤ value) :
    digitize value (b :: t) = digitize value t + 1 := by
  simp [digitize, List.takeWhile_cons, hb]

theorem digitize_cons_gt (value b : ℚ) (t : List ℚ) (hb : ¬ b ≤ value) :
    digitize value (b :: t) = 0 := by
  simp [digitize, List.takeWhile_cons, hb]

theorem digitize_le_length (value : ℚ) : ∀ bins : List ℚ, digitize value bins ≤ bins.length := by
  intro bins
  induction bins with
  | nil => exact Nat.le_refl 0
  | cons b t ih =>
    by_cases hb : b ≤ value
    · rw [digitize_cons_le value b t hb]
      simpa using ih
    · rw [digitize_cons_gt value b t hb]
      exact Nat.zero_le _

theorem digitize_below (value : ℚ) :
    ∀ (bins : List ℚ) (j : Nat) (hj2 : j < bins.length),
      j < digitize value bins → bins.get ⟨j, hj2⟩ ≤ value := by
  intro bins
  induction bins with
  | nil => intro j hj2; simp at hj2
  | cons b t ih =>
    intro j hj2 hj
    by_cases hb : b ≤ value
    · cases j with
      | zero => simpa using hb
      | succ k =>
        rw [digitize_cons_le value b t hb] at hj
        exact ih k (by simpa using Nat.lt_of_succ_lt_succ hj2) (Nat.lt_of_succ_lt_succ hj)
    · rw [digitize_cons_gt value b t hb] at hj
      cases hj

theorem digitize_at (value : ℚ) :
    ∀ (bins : List ℚ) (h : digitize value bins < bins.length),
      value < bins.get ⟨digitize value bins, h⟩ := by
  intro bins
  induction bins with
  | nil => intro h; simp at h
  | cons b t ih =>
    intro h
    by_cases hb : b ≤ value
    · have hd := digitize_cons_le value b t hb
      have ht : digitize value t < t.length := by
        rw [hd] at h
        simpa using Nat.lt_of_succ_lt_succ h
      have := ih ht
      simp only [hd]
      simpa using this
    · have hd := digitize_cons_gt value b t hb
      simp only [hd]
      simpa using lt_of_not_le hb

theorem sorted_get_lt (bins : List ℚ) (hsort : bins.Chain' (· < ·))
    {i j : Nat} (hij : i < j) (hj : j < bins.length) :
    bins.get ⟨i, Nat.lt_trans hij hj⟩ < bins.get ⟨j, hj⟩ := by
  have hp := (List.chain'_iff_pairwise).mp hsort
  exact List.pairwise_iff_get.mp hp ⟨i, Nat.lt_trans hij hj⟩ ⟨j, hj⟩ hij

theorem sorted_get_le (bins : List ℚ) (hsort : bins.Chain' (· < ·))
    {i j : Nat} (hij : i ≤ j) (hj : j < bins.length) :
    bins.get ⟨i, Nat.lt_of_le_of_lt hij hj⟩ ≤ bins.get ⟨j, hj⟩ := by
  rcases Nat.eq_or_lt_of_le hij with rfl | hlt
  · exact le_refl _
  · exact le_of_lt (sorted_get_lt bins hsort hlt hj)

/-- C4: for strictly increasing bin edges, `discretize` raises an
out-of-range error exactly when the value is below the first edge or at or
above the last edge; otherwise it returns the unique index `i` with
`bins[i] <= value < bins[i+1]` (so a value equal to the first edge lands
in bin 0 and a value equal to the last edge fails). -/
theorem C4_discretize_range (bins : List ℚ) (value : ℚ)
    (hne : bins ≠ []) (hsort : bins.Chain' (· < ·)) :
    ((∃ e, discretize bins value = Except.error e) ↔
      (value < bins.get ⟨0, List.length_pos.mpr hne⟩ ∨
        bins.get ⟨bins.length - 1,
          Nat.sub_lt (List.length_pos.mpr hne) Nat.one_pos⟩ ≤ value)) ∧
    ∀ i, discretize bins value = Except.ok i →
      ∃ hi : i + 1 < bins.length,
        bins.get ⟨i, Nat.lt_of_succ_lt hi⟩ ≤ value ∧
        value < bins.get ⟨i + 1, hi⟩ ∧
        ∀ j, ∀ hj : j + 1 < bins.length,
          bins.get ⟨j, Nat.lt_of_succ_lt hj⟩ ≤ value →
          value < bins.get ⟨j + 1, hj⟩ → j = i := by
  have hpos : 0 < bins.length := List.length_pos.mpr hne
  have hlen : digitize value bins ≤ bins.length := digitize_le_length value bins
  constructor
  · constructor
    · rintro ⟨e, he⟩
      unfold discretize at he
      by_cases hc : digitize value bins = 0 ∨ digitize value bins = bins.length
      · rcases hc with h0 | hfull
        · left
          have := digitize_at value bins (by rw [h0]; exact hpos)
          simpa [h0] using this
        · right
          refine digitize_below value bins (bins.length - 1)
            (Nat.sub_lt hpos Nat.one_pos) ?_
          rw [hfull]
          exact Nat.sub_lt hpos Nat.one_pos
      · rw [if_neg hc] at he
        cases he
    · intro h
      unfold discretize
      rw [if_pos]
      · exact ⟨"value outside of bins", rfl⟩
      · rcases h with hlow | hhigh
        · left
          by_contra h0
          have := digitize_below value bins 0 hpos (Nat.pos_of_ne_zero h0)
          exact absurd (lt_of_le_of_lt this hlow) (lt_irrefl _)
        · right
          by_contra hfull
          have hlt : digitize value bins < bins.length := Nat.lt_of_le_of_ne hlen hfull
          have hv := digitize_at value bins hlt
          have hle : bins.get ⟨digitize value bins, hlt⟩ ≤
              bins.get ⟨bins.length - 1, Nat.sub_lt hpos Nat.one_pos⟩ :=
            sorted_get_le bins hsort (Nat.le_sub_one_of_lt hlt) _
          exact absurd (lt_of_lt_of_le hv (le_trans hle hhigh)) (lt_irrefl _)
  · intro i hok
    unfold discretize at hok
    by_cases hc : digitize value bins = 0 ∨ digitize value bins = bins.length
    · rw [if_pos hc] at hok
      cases hok
    · rw [if_neg hc] at hok
      push_neg at hc
      obtain ⟨h0, hfull⟩ := hc
      have hpos' : 0 < digitize value bins := Nat.pos_of_ne_zero h0
      have hlt : digitize value bins < bins.length := Nat.lt_of_le_of_ne hlen hfull
      have hi : i + 1 < bins.length := by
        cases hok
        rw [Nat.sub_add_cancel hpos']
        exact hlt
      refine ⟨hi, ?_, ?_, ?_⟩
      · refine digitize_below value bins i (Nat.lt_of_succ_lt hi) ?_
        cases hok
        exact Nat.sub_lt hpos' Nat.one_pos
      · have : i + 1 = digitize value bins := by
          cases hok
          rw [Nat.sub_add_cancel hpos']
        have hv := digitize_at value bins hlt
        rw [show (⟨i + 1, hi⟩ : Fin bins.length) = ⟨digitize value bins, hlt⟩ by
          exact Fin.ext this]
        exact hv
      · intro j hj hjle hjlt
        have hieq : i + 1 = digitize value bins := by
          cases hok
          rw [Nat.sub_add_cancel hpos']
        by_contra hne'
        rcases Nat.lt_or_ge j i with hji | hij
        · have hj1i : j + 1 ≤ i := hji
          have : bins.get ⟨j + 1, hj⟩ ≤ bins.get ⟨i, Nat.lt_of_succ_lt hi⟩ :=
            sorted_get_le bins hsort hj1i _
          have hless := digitize_below value bins i (Nat.lt_of_succ_lt hi)
            (by rw [← hieq]; exact Nat.lt_succ_self i)
          exact absurd (lt_of_lt_of_le hjlt (le_trans this hless)) (lt_irrefl _)
        · have hij' : i < j := Nat.lt_of_le_of_ne hij (fun h => hne' h.symm)
          have hi1j : i + 1 ≤ j := hij'
          have : bins.get ⟨i + 1, hi⟩ ≤ bins.get ⟨j, Nat.lt_of_succ_lt hj⟩ :=
            sorted_get_le bins hsort hi1j _
          have hv : value < bins.get ⟨i + 1, hi⟩ := by
            rw [show (⟨i + 1, hi⟩ : Fin bins.length) = ⟨digitize value bins, hlt⟩ by
              exact Fin.ext hieq]
            exact digitize_at value bins hlt
          exact absurd (lt_of_lt_of_le hv (le_trans this hjle)) (lt_irrefl _)

/-- Witness for C4: with bins `[0, 1, 2, 3]`, the value `3` (the last
edge) fails discretization and the value `0` (the first edge) succeeds,
landing in bin `0` with `0 <= 0 < 1`. -/
theorem C4_witness :
    (∃ e, discretize [0, 1, 2, 3] (3 : ℚ) = Except.error e) ∧
    ∃ hi : 0 + 1 < ([0, 1, 2, 3] : List ℚ).length,
      ([0, 1, 2, 3] : List ℚ).get ⟨0, Nat.lt_of_succ_lt hi⟩ ≤ (0 : ℚ) ∧
      (0 : ℚ) < ([0, 1, 2, 3] : List ℚ).get ⟨0 + 1, hi⟩ ∧
      ∀ j, ∀ hj : j + 1 < ([0, 1, 2, 3] : List ℚ).length,
        ([0, 1, 2, 3] : List ℚ).get ⟨j, Nat.lt_of_succ_lt hj⟩ ≤ (0 : ℚ) →
        (0 : ℚ) < ([0, 1, 2, 3] : List ℚ).get ⟨j + 1, hj⟩ → j = 0 :=
  ⟨(C4_discretize_range [0, 1, 2, 3] 3 (by decide)
        (by norm_num [List.chain'_cons, List.chain'_singleton])).1.mpr
      (Or.inr (by norm_num)),
   (C4_discretize_range [0, 1, 2, 3] 0 (by decide)
        (by norm_num [List.chain'_cons, List.chain'_singleton])).2 0 rfl⟩

theorem pickFresh_sound (solutions : Coord → Gen) (idxs : List Coord) :
    ∀ (proposals : List Coord) (c : Coord) (rest : List Coord),
      pickFresh solutions idxs proposals = some (c, rest) →
      c ∉ idxs ∧ is_not_initialized solutions c = false := by
  intro proposals
  induction proposals with
  | nil => intro c rest h; cases h
  | cons p t ih =>
    intro c rest h
    unfold pickFresh at h
    by_cases hc : p ∈ idxs ∨ is_not_initialized solutions p = true
    · rw [if_pos hc] at h
      exact ih c rest h
    · rw [if_neg hc] at h
      push_neg at hc
      obtain ⟨h1, h2⟩ := Prod.mk.injEq .. ▸ Option.some.inj h
      subst h1
      subst h2
      exact ⟨hc.1, by simpa using hc.2⟩

theorem selectLoop_sound (solutions : Coord → Gen) :
    ∀ (n : Nat) (proposals idxs out : List Coord),
      selectLoop solutions n idxs proposals = some out →
      out.length = idxs.length + n ∧
      (∀ c ∈ out, c ∈ idxs ∨ is_not_initialized solutions c = false) ∧
      (idxs.Nodup → out.Nodup) := by
  intro n
  induction n with
  | zero =>
    intro proposals idxs out h
    have : idxs = out := Option.some.inj h
    subst this
    exact ⟨rfl, fun c hc => Or.inl hc, id⟩
  | succ k ih =>
    intro proposals idxs out h
    unfold selectLoop at h
    cases hp : pickFresh solutions idxs proposals with
    | none => rw [hp] at h; cases h
    | some pr =>
      obtain ⟨c, rest⟩ := pr
      rw [hp] at h
      obtain ⟨hnotin, hinit⟩ := pickFresh_sound solutions idxs proposals c rest hp
      obtain ⟨hlen, hmem, hnd⟩ := ih rest (idxs ++ [c]) out h
      refine ⟨?_, ?_, ?_⟩
      · rw [hlen]
        simp
        omega
      · intro d hd
        rcases hmem d hd with hin | hini
        · rcases List.mem_append.mp hin with h1 | h2
          · exact Or.inl h1
          · have : d = c := by simpa using h2
            subst this
            exact Or.inr hinit
        · exact Or.inr hini
      · intro hnod
        apply hnd
        simp [List.nodup_append, hnod, hnotin]

/-- C6: whenever `random_selection` completes, it returns exactly `n`
genotypes, each taken from a non-empty (initialized) cell, with the `n`
accepted coordinate tuples pairwise distinct within the call; and when the
archive has fewer initialized cells than `n`, no stream of random draws
can make it complete (the precondition `n <= occupied cells` is required
for termination and not enforced internally). -/
theorem C6_random_selection (solutions : Coord → Gen) (n : Nat)
    (proposals : List Coord) :
    (∀ out, selectIndices solutions n proposals = some out →
      random_selection solutions n proposals = some (out.map solutions) ∧
      out.length = n ∧ out.Nodup ∧
      ∀ c ∈ out, is_not_initialized solutions c = false) ∧
    ∀ S : Finset Coord,
      (∀ c : Coord, is_not_initialized solutions c = false → c ∈ S) →
      S.card < n → selectIndices solutions n proposals = none := by
  constructor
  · intro out h
    obtain ⟨hlen, hmem, hnd⟩ := selectLoop_sound solutions n proposals [] out h
    refine ⟨by simp [random_selection, h], by simpa using hlen, hnd (List.nodup_nil), ?_⟩
    intro c hc
    rcases hmem c hc with h0 | h1
    · cases h0
    · exact h1
  · intro S hS hcard
    by_contra hne
    obtain ⟨out, hout⟩ := Option.ne_none_iff_exists'.mp hne
    obtain ⟨hlen, hmem, hnd⟩ := selectLoop_sound solutions n proposals [] out hout
    have hnodup : out.Nodup := hnd List.nodup_nil
    have hsub : out.toFinset ⊆ S := by
      intro c hc
      rcases hmem c (List.mem_toFinset.mp hc) with h0 | h1
      · cases h0
      · exact hS c h1
    have hcards : out.toFinset.card = n := by
      rw [List.toFinset_card_of_nodup hnodup]
      simpa using hlen
    have := Finset.card_le_card hsub
    rw [hcards] at this
    exact absurd (Nat.lt_of_lt_of_le hcard this) (lt_irrefl _)

/-- Witness for C6: an archive with exactly the cell `[0]` initialized;
the first draw `[1]` hits an empty cell and is skipped, the second draw
`[0]` is accepted: one genotype from a non-empty cell, no duplicate
coordinates. -/
theorem C6_witness :
    random_selection (fun c => if c = [0] then [Fl.finite 1] else [Fl.inf, Fl.inf]) 1
        [[1], [0]] =
      some (List.map (fun c => if c = [0] then [Fl.finite 1] else [Fl.inf, Fl.inf]) [[0]]) ∧
    ([[0]] : List Coord).length = 1 ∧ ([[0]] : List Coord).Nodup ∧
    ∀ c ∈ ([[0]] : List Coord),
      is_not_initialized (fun c => if c = [0] then [Fl.finite 1] else [Fl.inf, Fl.inf]) c =
        false :=
  (C6_random_selection (fun c => if c = [0] then [Fl.finite 1] else [Fl.inf, Fl.inf]) 1
    [[1], [0]]).1 [[0]] (by decide)
